import Mathlib

/-!
# Verification of the junebug trivia game core

Shallow embedding of the two source files of the repository:
* the quote-aware CSV parser and question validator of
  `question-challenge-home.component.ts` (`parseCSV` at its canonical,
  quote-preserving variant, `parseAndValidateCSV`, `shuffleArray`), and
* the round / timer / session engine of `home.component.ts`
  (`QuestionChallengeComponent`), together with its split-based fallback
  CSV parser (`parseCSV` of that file).

JavaScript strings are modelled as `String` / `List Char`; `trim` is
modelled by `trimChars` (dropping whitespace from both ends);
`Math.random`-driven choices are explicit parameters.
-/

namespace Junebug

/-- JS `String.prototype.trim` on a character list: drop whitespace from
both ends. -/
def trimChars (l : List Char) : List Char :=
  ((l.dropWhile Char.isWhitespace).reverse.dropWhile Char.isWhitespace).reverse

/-- JS `s.trim()`. -/
def jsTrim (s : String) : String :=
  String.mk (trimChars s.data)

/-- The field value pushed by `parseCSV`:
`currentRow.push(fieldStartedWithQuote ? currentField : currentField.trim())`. -/
def pushField (sq : Bool) (fld : List Char) : String :=
  if sq then String.mk fld else String.mk (trimChars fld)

/-- Row emission of `parseCSV`: a finished row is appended to `rows` only
if some field is nonempty (`currentRow.some(field => field.length > 0)`). -/
def finishRow (rows : List (List String)) (row : List String) : List (List String) :=
  if row.any (fun f => f.length > 0) then rows ++ [row] else rows

/-- The character scan of `parseCSV`
(`question-challenge-home.component.ts`, lines 438-497, the canonical
quote-preserving variant): state is the emitted `rows`, the `currentRow`,
the `currentField`, the `inQuotes` flag and the `fieldStartedWithQuote`
flag.  The JS lookahead `nextChar` and index skips (`i++`) are modelled by
`head?` / `tail` on the remaining character list. -/
def parseCSVAux : List Char → List (List String) → List String → List Char → Bool → Bool →
    List (List String)
  | [], rows, row, fld, _, sq =>
    finishRow rows (row ++ [pushField sq fld])
  | c :: cs, rows, row, fld, inQ, sq =>
    if c = '"' then
      if fld = [] ∧ inQ = false then
        parseCSVAux cs rows row fld true true
      else if inQ = true then
        match cs with
        | '"' :: cs2 => parseCSVAux cs2 rows row (fld ++ ['"']) inQ sq
        | rest => parseCSVAux rest rows row fld false sq
      else
        parseCSVAux cs rows row (fld ++ [c]) inQ sq
    else if c = ',' ∧ inQ = false then
      parseCSVAux cs rows (row ++ [pushField sq fld]) [] false false
    else if (c = '\n' ∨ c = '\r') ∧ inQ = false then
      if c = '\r' then
        match cs with
        | '\n' :: cs2 =>
          parseCSVAux cs2 (finishRow rows (row ++ [pushField sq fld])) [] [] false false
        | rest =>
          parseCSVAux rest (finishRow rows (row ++ [pushField sq fld])) [] [] false false
      else
        parseCSVAux cs (finishRow rows (row ++ [pushField sq fld])) [] [] false false
    else
      parseCSVAux cs rows row (fld ++ [c]) inQ sq

/-- `parseCSV(csvText)` of `question-challenge-home.component.ts`
(lines 438-497): the upload parser. -/
def parseCSV (csvText : String) : List (List String) :=
  parseCSVAux csvText.data [] [] [] false false

/-! ## A printer for well-formed CSV texts

To state "for every input text, quoted fields are preserved verbatim and
unquoted fields are trimmed" we build arbitrary well-formed CSV texts from
field specifications and prove what `parseCSV` returns on them. -/

/-- A CSV field specification: whether the author writes it quoted, and its
content (the intended field value). -/
structure FieldSpec where
  quoted : Bool
  content : List Char
  deriving DecidableEq

/-- CSV quote escaping: each `"` of the content is written as `""`. -/
def escapeQ : List Char → List Char
  | [] => []
  | c :: cs => if c = '"' then '"' :: '"' :: escapeQ cs else c :: escapeQ cs

/-- Render one field: quoted fields are wrapped in `"` with their content
escaped; unquoted fields are written as-is. -/
def renderField (f : FieldSpec) : List Char :=
  if f.quoted then '"' :: (escapeQ f.content ++ ['"']) else f.content

/-- The field value `parseCSV` is expected to produce: quoted fields keep
their exact content, unquoted fields are trimmed. -/
def procField (f : FieldSpec) : String :=
  pushField f.quoted f.content

/-- Join chunks with a separator character. -/
def joinSep (sep : Char) : List (List Char) → List Char
  | [] => []
  | [l] => l
  | l :: ls => l ++ sep :: joinSep sep ls

/-- Render one row: fields joined by commas. -/
def renderRow (r : List FieldSpec) : List Char :=
  joinSep ',' (r.map renderField)

/-- Render a CSV text: rows joined by newlines (no trailing newline). -/
def renderCSV (rs : List (List FieldSpec)) : List Char :=
  joinSep '\n' (rs.map renderRow)

/-- An unquoted field content must not contain the structural characters. -/
def goodUnquoted (cs : List Char) : Prop :=
  ∀ c ∈ cs, c ≠ '"' ∧ c ≠ ',' ∧ c ≠ '\n' ∧ c ≠ '\r'

instance : DecidablePred goodUnquoted := fun cs =>
  List.decidableBAll _ cs

/-- A well-formed field: quoted content is arbitrary, unquoted content has
no structural characters. -/
def goodField (f : FieldSpec) : Prop :=
  f.quoted = false → goodUnquoted f.content

instance : DecidablePred goodField := fun f => by
  unfold goodField; infer_instance

/-- A well-formed row: nonempty, all fields well-formed, and at least one
processed field nonempty (otherwise `parseCSV` drops the row as blank). -/
def goodRow (r : List FieldSpec) : Prop :=
  r ≠ [] ∧ (∀ f ∈ r, goodField f) ∧
    (r.map procField).any (fun f => f.length > 0) = true

instance : DecidablePred goodRow := fun r => by
  unfold goodRow; infer_instance

/-! ## The fallback parser of the round engine -/

/-- `parseCSV(csvText)` of `home.component.ts` (lines 197-213), restricted
to its row/field decomposition: the fallback question-loading path splits
the text on newlines, drops blank lines, trims each kept line and splits it
on commas — with no quote handling at all. -/
def fallbackRows (csvText : String) : List (List String) :=
  ((csvText.data.splitOn '\n').filter (fun l => !(trimChars l).isEmpty)).map
    (fun l => ((trimChars l).splitOn ',').map String.mk)

/-- The head of `l` (if any) is not whitespace. -/
def headNotWs (l : List Char) : Prop :=
  ∀ c, l.head? = some c → c.isWhitespace = false

/-- The restricted input class on which the upload parser and the fallback
parser agree: nonempty rows whose fields contain no structural characters,
are stable under trimming, with at least one nonempty field per row. -/
def plainRow (r : List (List Char)) : Prop :=
  r ≠ [] ∧ (∀ cs ∈ r, goodUnquoted cs ∧ trimChars cs = cs) ∧ ∃ cs ∈ r, cs ≠ []

instance : DecidablePred plainRow := fun r => by
  unfold plainRow; infer_instance

/-! ## The question validator -/

/-- A validated question (the `Question` interface of the source). -/
structure Question where
  question : String
  answers : List String
  correct : ℕ
  deriving DecidableEq

/-- Swap two positions of a list; out-of-range indices leave the list
unchanged (out-of-range draws cannot occur in the source's loop). -/
def listSwap {α : Type} (l : List α) (i j : ℕ) : List α :=
  match l[i]?, l[j]? with
  | some a, some b => (l.set i b).set j a
  | _, _ => l

/-- The Fisher-Yates loop of `shuffleArray`: at loop counter `i ≥ 1` swap
position `i` with position `choice i` (the source draws
`Math.floor(Math.random() * (i + 1))`, a value in `[0, i]`), then continue
downward; the loop stops at `0`. -/
def fyAux {α : Type} (choice : ℕ → ℕ) (l : List α) : ℕ → List α
  | 0 => l
  | i + 1 => fyAux choice (listSwap l (i + 1) (choice (i + 1))) i

/-- `shuffleArray(array)` of `question-challenge-home.component.ts`
(lines 499-506), with the random draws supplied by `choice`. -/
def shuffleArray {α : Type} (choice : ℕ → ℕ) (array : List α) : List α :=
  fyAux choice array (array.length - 1)

/-- The outcome of the validation loop on one row: silently skipped,
rejected with an error message, or accepted as a question. -/
inductive RowOutcome where
  | skip
  | err (msg : String)
  | ok (q : Question)
  deriving DecidableEq

def RowOutcome.questionOf : RowOutcome → Option Question
  | .ok q => some q
  | _ => none

def RowOutcome.errorOf : RowOutcome → Option String
  | .err m => some m
  | _ => none

/-- One iteration of the validation loop of `parseAndValidateCSV`
(`question-challenge-home.component.ts`, lines 117-155) on row index `i`
with fields `parts`, using shuffle randomness `choice`. -/
def processRow (choice : ℕ → ℕ) (i : ℕ) (parts : List String) : RowOutcome :=
  if parts.length = 0 ∨ parts.headD "" = "" then .skip
  else if parts.length < 5 then
    .err ("Line " ++ toString (i + 1) ++
      ": Not enough columns (need at least 5: question + 4 answers)")
  else
    let question := jsTrim (parts.getD 0 "")
    let correctAnswer := jsTrim (parts.getD 1 "")
    let wrongAnswers := [jsTrim (parts.getD 2 ""), jsTrim (parts.getD 3 ""),
      jsTrim (parts.getD 4 "")]
    if question = "" then
      .err ("Line " ++ toString (i + 1) ++ ": Question is empty")
    else if correctAnswer = "" then
      .err ("Line " ++ toString (i + 1) ++ ": Correct answer is empty")
    else if wrongAnswers.any (fun a => a == "") then
      .err ("Line " ++ toString (i + 1) ++ ": One or more wrong answers are empty")
    else
      let allAnswers := correctAnswer :: wrongAnswers
      let shuffledAnswers := shuffleArray choice allAnswers
      let correctIndex := shuffledAnswers.indexOf correctAnswer
      .ok { question := question, answers := shuffledAnswers, correct := correctIndex }

/-- The validation loop over all rows after the header (`for i = 1; ...`);
`rand i` supplies the shuffle randomness consumed at row `i`. -/
def validateOutcomes (rand : ℕ → ℕ → ℕ) (rows : List (List String)) : List RowOutcome :=
  (rows.drop 1).enum.map (fun p => processRow (rand (p.1 + 1)) (p.1 + 1) p.2)

/-- The accepted questions, in row order. -/
def validateQuestions (rand : ℕ → ℕ → ℕ) (rows : List (List String)) : List Question :=
  (validateOutcomes rand rows).filterMap RowOutcome.questionOf

/-- The collected row-level error messages, in row order. -/
def validateErrors (rand : ℕ → ℕ → ℕ) (rows : List (List String)) : List String :=
  (validateOutcomes rand rows).filterMap RowOutcome.errorOf

/-- The component state touched by `parseAndValidateCSV`. -/
structure UploadState where
  questionsPerRound : ℕ
  uploadError : Option String
  questionsLoaded : Bool
  uploadedQuestions : List Question
  questionCount : ℕ
  deriving DecidableEq

/-- `parseAndValidateCSV(csvText)` (lines 103-174). -/
def parseAndValidateCSV (rand : ℕ → ℕ → ℕ) (csvText : String) (st : UploadState) :
    UploadState :=
  let rows := parseCSV csvText
  if rows.length < 2 then
    { st with
      uploadError := some "File must contain at least a header and one question.",
      questionsLoaded := false }
  else
    let questions := validateQuestions rand rows
    let errors := validateErrors rand rows
    if errors.length > 0 ∧ questions.length = 0 then
      { st with
        uploadError := some ("Errors found:\n" ++ String.intercalate "\n" (errors.take 3)),
        questionsLoaded := false }
    else if questions.length < st.questionsPerRound then
      { st with
        uploadError := some ("Need at least " ++ toString st.questionsPerRound ++
          " valid questions. Found only " ++ toString questions.length ++ "."),
        questionsLoaded := false }
    else
      { st with
        uploadedQuestions := questions,
        questionCount := questions.length,
        questionsLoaded := true,
        uploadError := none }

/-! ## The round engine (`QuestionChallengeComponent` of home.component.ts) -/

/-- Per-question state of the active round. -/
structure QuestionState where
  question : Question
  selected : Option ℕ
  deriving DecidableEq

/-- The component state of the round engine.  `timerRunning` models
`timerInterval !== null` (an armed countdown interval). -/
structure GameState where
  allQuestions : List Question
  questionsPerRound : ℕ
  timeLimitSeconds : ℕ
  questionSets : List QuestionState
  timeRemaining : ℕ
  roundComplete : Bool
  timeExpired : Bool
  showCongratulations : Bool
  currentRound : ℕ
  currentRoundCorrect : ℕ
  currentRoundTotal : ℕ
  cumulativeCorrect : ℕ
  cumulativeTotal : ℕ
  roundTheme : ℕ
  timerRunning : Bool
  deriving DecidableEq

/-- `startNewRound()` (lines 215-233): `shuffled` is the random ordering
produced by the sort inside `selectRandomQuestions`, `theme` the random
theme index. -/
def startNewRound (shuffled : List Question) (theme : ℕ) (s : GameState) : GameState :=
  { s with
    questionSets := (shuffled.take s.questionsPerRound).map
      (fun q => { question := q, selected := none }),
    roundTheme := theme,
    timeRemaining := s.timeLimitSeconds,
    roundComplete := false,
    timeExpired := false,
    showCongratulations := false,
    currentRoundCorrect := 0,
    currentRoundTotal := 0,
    timerRunning := true }

/-- One firing of the `setInterval` callback armed by `startTimer`
(lines 240-253); it can only fire while the interval is armed. -/
def timerTick (s : GameState) : GameState :=
  if s.timerRunning = false then s
  else if s.timeRemaining > 0 then { s with timeRemaining := s.timeRemaining - 1 }
  else { s with timerRunning := false, timeExpired := true, roundComplete := true }

/-- `selectAnswer(questionIndex, answerIndex)` (lines 262-267). -/
def selectAnswer (questionIndex answerIndex : ℕ) (s : GameState) : GameState :=
  if s.roundComplete then s
  else
    match s.questionSets[questionIndex]? with
    | some qs =>
      { s with questionSets :=
          s.questionSets.set questionIndex { qs with selected := some answerIndex } }
    | none => s

/-- The count computed by the `forEach` loop of `submitAnswers`. -/
def countCorrect (qss : List QuestionState) : ℕ :=
  (qss.filter (fun qs => qs.selected = some qs.question.correct)).length

/-- `canSubmit()` (lines 328-331). -/
def canSubmit (s : GameState) : Bool :=
  !s.roundComplete && s.questionSets.all (fun qs => qs.selected.isSome)

/-- `submitAnswers()` (lines 269-299). -/
def submitAnswers (s : GameState) : GameState :=
  if s.roundComplete then s
  else if !(s.questionSets.all (fun qs => qs.selected.isSome)) then s
  else
    let correctCount := countCorrect s.questionSets
    { s with
      timerRunning := false,
      roundComplete := true,
      currentRoundCorrect := correctCount,
      currentRoundTotal := s.questionSets.length,
      cumulativeCorrect := s.cumulativeCorrect + correctCount,
      cumulativeTotal := s.cumulativeTotal + s.questionSets.length,
      showCongratulations := if !s.timeExpired then true else s.showCongratulations }

/-- `nextRound()` (lines 301-304). -/
def nextRound (shuffled : List Question) (theme : ℕ) (s : GameState) : GameState :=
  startNewRound shuffled theme { s with currentRound := s.currentRound + 1 }

/-- `getCumulativePercent()` (lines 343-347); `Math.round` is half-up
rounding of the exact ratio. -/
def getCumulativePercent (s : GameState) : ℤ :=
  if s.cumulativeTotal = 0 then 0
  else round ((s.cumulativeCorrect : ℚ) / (s.cumulativeTotal : ℚ) * 100)

/-- The in-game operations of the round engine: answer selection, timer
ticks, submission, and starting or advancing rounds with fresh
randomness (the sort-based shuffle always yields a permutation of the
question bank). -/
inductive Step : GameState → GameState → Prop where
  | select (questionIndex answerIndex : ℕ) (s : GameState) :
      Step s (selectAnswer questionIndex answerIndex s)
  | tick (s : GameState) : Step s (timerTick s)
  | submit (s : GameState) : Step s (submitAnswers s)
  | next (shuffled : List Question) (theme : ℕ) (s : GameState)
      (hperm : shuffled.Perm s.allQuestions) :
      Step s (nextRound shuffled theme s)
  | start (shuffled : List Question) (theme : ℕ) (s : GameState)
      (hperm : shuffled.Perm s.allQuestions) :
      Step s (startNewRound shuffled theme s)

/-! ## Sanity checks on the parsers -/

example : parseCSV "a,b\nc,d" = [["a", "b"], ["c", "d"]] := by decide
example : parseCSV "\"a,b\",c" = [["a,b", "c"]] := by decide
example : parseCSV " x ,\" y \"" = [["x", " y "]] := by decide
example : parseCSV "a\"b" = [["a\"b"]] := by decide
example : parseCSV "\"he said \"\"hi\"\"\"" = [["he said \"hi\""]] := by decide
example : parseCSV "\"l1\nl2\",x" = [["l1\nl2", "x"]] := by decide
example : parseCSV "a\r\nb" = [["a"], ["b"]] := by decide
example : parseCSV "a\n\n\nb" = [["a"], ["b"]] := by decide
example : parseCSV "" = [] := by decide
example : fallbackRows "a,b\nc,d" = [["a", "b"], ["c", "d"]] := by decide
example : fallbackRows "\"a,b\",c" = [["\"a", "b\"", "c"]] := by decide

/-! ## Step lemmas for the parser scan -/

set_option maxHeartbeats 2000000 in
theorem step_open (cs : List Char) (rows : List (List String)) (row : List String) (sq : Bool) :
    parseCSVAux ('"' :: cs) rows row [] false sq = parseCSVAux cs rows row [] true true := by
  conv_lhs => rw [parseCSVAux.eq_def]
  simp

theorem step_escape (cs : List Char) (rows : List (List String)) (row : List String)
    (fld : List Char) (sq : Bool) :
    parseCSVAux ('"' :: '"' :: cs) rows row fld true sq =
      parseCSVAux cs rows row (fld ++ ['"']) true sq := by
  conv_lhs => rw [parseCSVAux.eq_def]
  simp

theorem step_close (cs : List Char) (rows : List (List String)) (row : List String)
    (fld : List Char) (sq : Bool) (h : cs.head? ≠ some '"') :
    parseCSVAux ('"' :: cs) rows row fld true sq = parseCSVAux cs rows row fld false sq := by
  cases cs with
  | nil =>
    conv_lhs => rw [parseCSVAux.eq_def]
    simp
  | cons c2 cs2 =>
    have hc : c2 ≠ '"' := by
      intro hc; exact h (by simp [hc])
    conv_lhs => rw [parseCSVAux.eq_def]
    simp [hc]

theorem step_litquote (cs : List Char) (rows : List (List String)) (row : List String)
    (fld : List Char) (sq : Bool) (h : fld ≠ []) :
    parseCSVAux ('"' :: cs) rows row fld false sq =
      parseCSVAux cs rows row (fld ++ ['"']) false sq := by
  conv_lhs => rw [parseCSVAux.eq_def]
  simp [h]

theorem step_comma (cs : List Char) (rows : List (List String)) (row : List String)
    (fld : List Char) (sq : Bool) :
    parseCSVAux (',' :: cs) rows row fld false sq =
      parseCSVAux cs rows (row ++ [pushField sq fld]) [] false false := by
  conv_lhs => rw [parseCSVAux.eq_def]
  simp

theorem step_newline (cs : List Char) (rows : List (List String)) (row : List String)
    (fld : List Char) (sq : Bool) :
    parseCSVAux ('\n' :: cs) rows row fld false sq =
      parseCSVAux cs (finishRow rows (row ++ [pushField sq fld])) [] [] false false := by
  conv_lhs => rw [parseCSVAux.eq_def]
  simp

theorem step_other (c : Char) (cs : List Char) (rows : List (List String)) (row : List String)
    (fld : List Char) (inQ sq : Bool)
    (h1 : c ≠ '"') (h2 : c ≠ ',') (h3 : c ≠ '\n') (h4 : c ≠ '\r') :
    parseCSVAux (c :: cs) rows row fld inQ sq =
      parseCSVAux cs rows row (fld ++ [c]) inQ sq := by
  conv_lhs => rw [parseCSVAux.eq_def]
  simp [h1, h2, h3, h4]

theorem step_inq (c : Char) (cs : List Char) (rows : List (List String)) (row : List String)
    (fld : List Char) (sq : Bool) (h1 : c ≠ '"') :
    parseCSVAux (c :: cs) rows row fld true sq =
      parseCSVAux cs rows row (fld ++ [c]) true sq := by
  by_cases h2 : c = ','
  · subst h2
    conv_lhs => rw [parseCSVAux.eq_def]
    simp
  · by_cases h3 : c = '\n'
    · subst h3
      conv_lhs => rw [parseCSVAux.eq_def]
      simp
    · by_cases h4 : c = '\r'
      · subst h4
        conv_lhs => rw [parseCSVAux.eq_def]
        simp
      · exact step_other c cs rows row fld true sq h1 h2 h3 h4

theorem parse_base (rows : List (List String)) (row : List String) (fld : List Char)
    (inQ sq : Bool) :
    parseCSVAux [] rows row fld inQ sq = finishRow rows (row ++ [pushField sq fld]) := rfl

theorem finishRow_pos (rows : List (List String)) (row : List String)
    (h : row.any (fun f => f.length > 0) = true) :
    finishRow rows row = rows ++ [row] := by
  simp [finishRow, h]

theorem pushField_spec (f : FieldSpec) : pushField f.quoted f.content = procField f := rfl

/-! ## Consumption lemmas: how the scan eats rendered fields and rows -/

theorem consume_unquoted (cs : List Char) (h : goodUnquoted cs) :
    ∀ (rest : List Char) (rows : List (List String)) (row : List String)
      (fld : List Char) (sq : Bool),
      parseCSVAux (cs ++ rest) rows row fld false sq =
        parseCSVAux rest rows row (fld ++ cs) false sq := by
  induction cs with
  | nil => intro rest rows row fld sq; simp
  | cons c cs ih =>
    intro rest rows row fld sq
    obtain ⟨h1, h2, h3, h4⟩ := h c (by simp)
    rw [List.cons_append, step_other c _ _ _ _ _ _ h1 h2 h3 h4,
      ih (fun d hd => h d (by simp [hd])) rest rows row (fld ++ [c]) sq]
    simp

theorem consume_quoted (s : List Char) :
    ∀ (rest : List Char) (rows : List (List String)) (row : List String)
      (fld : List Char) (sq : Bool),
      parseCSVAux (escapeQ s ++ rest) rows row fld true sq =
        parseCSVAux rest rows row (fld ++ s) true sq := by
  induction s with
  | nil => intro rest rows row fld sq; simp [escapeQ]
  | cons c s ih =>
    intro rest rows row fld sq
    by_cases hc : c = '"'
    · subst hc
      simp only [escapeQ, eq_self_iff_true, if_true, List.cons_append]
      rw [step_escape, ih rest rows row (fld ++ ['"']) sq]
      simp
    · simp only [escapeQ, if_neg hc, List.cons_append]
      rw [step_inq c _ _ _ _ _ hc, ih rest rows row (fld ++ [c]) sq]
      simp

theorem field_consume (f : FieldSpec) (hf : goodField f) (rest : List Char)
    (hrest : rest.head? ≠ some '"') (rows : List (List String)) (row : List String) :
    parseCSVAux (renderField f ++ rest) rows row [] false false =
      parseCSVAux rest rows row f.content false f.quoted := by
  rcases f with ⟨q, content⟩
  cases q with
  | false =>
    simpa [renderField] using consume_unquoted content (hf rfl) rest rows row [] false
  | true =>
    have hshape : renderField ⟨true, content⟩ ++ rest =
        '"' :: (escapeQ content ++ ('"' :: rest)) := by
      simp [renderField]
    rw [hshape, step_open, consume_quoted content ('"' :: rest) rows row [] true]
    simp only [List.nil_append]
    exact step_close rest rows row content true hrest

theorem joinSep_cons (sep : Char) (x : List Char) (l : List (List Char)) (h : l ≠ []) :
    joinSep sep (x :: l) = x ++ sep :: joinSep sep l := by
  cases l with
  | nil => exact absurd rfl h
  | cons y ls => rfl

theorem fields_consume :
    ∀ (fs : List FieldSpec) (g : FieldSpec) (rest : List Char)
      (rows : List (List String)) (row : List String),
      (∀ f ∈ fs ++ [g], goodField f) → rest.head? ≠ some '"' →
      parseCSVAux (joinSep ',' ((fs ++ [g]).map renderField) ++ rest) rows row [] false false =
        parseCSVAux rest rows (row ++ fs.map procField) g.content false g.quoted := by
  intro fs
  induction fs with
  | nil =>
    intro g rest rows row hg hrest
    simpa [joinSep] using field_consume g (hg g (by simp)) rest hrest rows row
  | cons f fs ih =>
    intro g rest rows row hg hrest
    have hg' : ∀ d ∈ fs ++ [g], goodField d := by
      intro d hd
      apply hg
      simp only [List.cons_append, List.mem_cons]
      right; exact hd
    have hmap : ((f :: fs) ++ [g]).map renderField =
        renderField f :: ((fs ++ [g]).map renderField) := by simp
    have hne : (fs ++ [g]).map renderField ≠ [] := by simp
    rw [hmap, joinSep_cons ',' _ _ hne, List.append_assoc, List.cons_append]
    rw [field_consume f (hg f (by simp)) _ (by simp) rows row, step_comma]
    rw [pushField_spec f, ih g rest rows (row ++ [procField f]) hg' hrest]
    simp

theorem rows_consume :
    ∀ (rs : List (List FieldSpec)) (rows : List (List String)),
      (∀ r ∈ rs, goodRow r) →
      parseCSVAux (renderCSV rs) rows [] [] false false =
        rows ++ rs.map (fun r => r.map procField) := by
  intro rs
  induction rs with
  | nil =>
    intro rows _
    show parseCSVAux [] rows [] [] false false = rows ++ []
    rw [parse_base]
    simp [finishRow, pushField, trimChars]
  | cons r rs ih =>
    intro rows h
    obtain ⟨hne, hfields, hnonempty⟩ := h r (by simp)
    obtain ⟨fs, g, rfl⟩ : ∃ fs g, r = fs ++ [g] := by
      rcases List.eq_nil_or_concat r with h0 | ⟨fs, g, h0⟩
      · exact absurd h0 hne
      · exact ⟨fs, g, by simpa [List.concat_eq_append] using h0⟩
    have hrowmap : (fs ++ [g]).map procField = fs.map procField ++ [procField g] := by simp
    cases rs with
    | nil =>
      show parseCSVAux (renderCSV [fs ++ [g]]) rows [] [] false false = _
      have hr : renderCSV [fs ++ [g]] = joinSep ',' ((fs ++ [g]).map renderField) ++ [] := by
        simp [renderCSV, joinSep, renderRow]
      rw [hr, fields_consume fs g [] rows [] hfields (by simp), parse_base,
        pushField_spec g]
      simp only [List.nil_append]
      rw [← hrowmap, finishRow_pos _ _ hnonempty]
      simp
    | cons r2 rs2 =>
      have hshape : renderCSV ((fs ++ [g]) :: r2 :: rs2) =
          joinSep ',' ((fs ++ [g]).map renderField) ++ ('\n' :: renderCSV (r2 :: rs2)) := by
        show joinSep '\n' _ = _
        rw [List.map_cons, joinSep_cons '\n' _ _ (by simp)]
        rfl
      rw [hshape, fields_consume fs g _ rows [] hfields (by simp), step_newline,
        pushField_spec g]
      simp only [List.nil_append]
      rw [← hrowmap, finishRow_pos _ _ hnonempty,
        ih (rows ++ [(fs ++ [g]).map procField]) (fun d hd => h d (by simp [hd]))]
      simp

/-- `parseCSV` on any well-formed rendered CSV text returns exactly the
processed fields: quoted contents verbatim, unquoted contents trimmed. -/
theorem parse_render (rs : List (List FieldSpec)) (h : ∀ r ∈ rs, goodRow r) :
    parseCSV (String.mk (renderCSV rs)) = rs.map (fun r => r.map procField) := by
  simpa [parseCSV] using rows_consume rs [] h

/-! ## Facts about trimming and joining -/

theorem dropWhile_eq_self_of_head (l : List Char) (h : headNotWs l) :
    l.dropWhile Char.isWhitespace = l := by
  cases l with
  | nil => rfl
  | cons c cs =>
    have hc := h c rfl
    simp [List.dropWhile_cons, hc]

theorem headNotWs_of_dropWhile_eq_self (l : List Char)
    (h : l.dropWhile Char.isWhitespace = l) : headNotWs l := by
  intro c hc
  cases l with
  | nil => simp at hc
  | cons d ds =>
    obtain rfl : d = c := by simpa using hc
    by_contra hw
    simp only [Bool.not_eq_false] at hw
    rw [List.dropWhile_cons, if_pos hw] at h
    have hlen := (List.dropWhile_suffix (l := ds) Char.isWhitespace).length_le
    rw [h] at hlen
    simp at hlen

theorem trimChars_eq_self (l : List Char) (h1 : headNotWs l) (h2 : headNotWs l.reverse) :
    trimChars l = l := by
  unfold trimChars
  rw [dropWhile_eq_self_of_head l h1, dropWhile_eq_self_of_head l.reverse h2,
    List.reverse_reverse]

theorem headNotWs_of_trim (l : List Char) (h : trimChars l = l) :
    headNotWs l ∧ headNotWs l.reverse := by
  have e1 : l.dropWhile Char.isWhitespace = l := by
    apply (List.dropWhile_suffix _).eq_of_length
    have hle1 := (List.dropWhile_suffix (l := (l.dropWhile Char.isWhitespace).reverse)
      Char.isWhitespace).length_le
    have hle2 := (List.dropWhile_suffix (l := l) Char.isWhitespace).length_le
    have hlen : ((l.dropWhile Char.isWhitespace).reverse.dropWhile
        Char.isWhitespace).length = l.length := by
      have := congrArg List.length h
      simpa [trimChars] using this
    simp only [List.length_reverse] at hle1
    omega
  have e2 : l.reverse.dropWhile Char.isWhitespace = l.reverse := by
    have h' := h
    unfold trimChars at h'
    rw [e1] at h'
    have := congrArg List.reverse h'
    simpa using this
  exact ⟨headNotWs_of_dropWhile_eq_self l e1, headNotWs_of_dropWhile_eq_self _ e2⟩

theorem joinSep_ne_nil (sep : Char) (r : List (List Char)) (h : ∃ cs ∈ r, cs ≠ []) :
    joinSep sep r ≠ [] := by
  obtain ⟨cs, hmem, hcs⟩ := h
  cases r with
  | nil => simp at hmem
  | cons f rest =>
    cases rest with
    | nil =>
      obtain rfl : cs = f := by simpa using hmem
      simpa [joinSep] using hcs
    | cons g rest2 =>
      rw [joinSep_cons _ _ _ (by simp)]
      simp

theorem headNotWs_joinSep (sep : Char) (hsep : sep.isWhitespace = false)
    (r : List (List Char)) (hr : ∀ cs ∈ r, headNotWs cs) :
    headNotWs (joinSep sep r) := by
  cases r with
  | nil => intro c hc; simp [joinSep] at hc
  | cons f rest =>
    cases rest with
    | nil => simpa [joinSep] using hr f (by simp)
    | cons g rest2 =>
      rw [joinSep_cons _ _ _ (by simp)]
      cases f with
      | nil =>
        intro c hc
        obtain rfl : sep = c := by simpa using hc
        exact hsep
      | cons a f2 =>
        intro c hc
        have hac : a = c := by simpa using hc
        exact hac ▸ hr (a :: f2) (by simp) a rfl

theorem joinSep_concat (sep : Char) (L : List (List Char)) (a : List Char) (h : L ≠ []) :
    joinSep sep (L ++ [a]) = joinSep sep L ++ sep :: a := by
  induction L with
  | nil => exact absurd rfl h
  | cons f L2 ih =>
    cases L2 with
    | nil => simp [joinSep]
    | cons g L3 =>
      rw [List.cons_append, joinSep_cons _ _ _ (by simp), joinSep_cons _ _ _ (by simp),
        ih (by simp)]
      simp

theorem joinSep_reverse (sep : Char) (L : List (List Char)) :
    (joinSep sep L).reverse = joinSep sep ((L.map List.reverse).reverse) := by
  induction L with
  | nil => simp [joinSep]
  | cons f L2 ih =>
    cases L2 with
    | nil => simp [joinSep]
    | cons g L3 =>
      rw [joinSep_cons _ _ _ (by simp)]
      have hne : ((g :: L3).map List.reverse).reverse ≠ [] := by simp
      calc (f ++ sep :: joinSep sep (g :: L3)).reverse
          = (joinSep sep (g :: L3)).reverse ++ sep :: f.reverse := by
            simp
      _ = joinSep sep (((g :: L3).map List.reverse).reverse) ++ sep :: f.reverse := by
            rw [ih]
      _ = joinSep sep ((((g :: L3).map List.reverse).reverse) ++ [f.reverse]) := by
            rw [joinSep_concat _ _ _ hne]
      _ = joinSep sep (((f :: g :: L3).map List.reverse).reverse) := by
            simp

theorem mem_joinSep (sep c : Char) (L : List (List Char)) (h : c ∈ joinSep sep L) :
    c = sep ∨ ∃ l ∈ L, c ∈ l := by
  induction L with
  | nil => simp [joinSep] at h
  | cons f L2 ih =>
    cases L2 with
    | nil =>
      right
      exact ⟨f, by simp, by simpa [joinSep] using h⟩
    | cons g L3 =>
      rw [joinSep_cons _ _ _ (by simp)] at h
      rcases List.mem_append.mp h with hf | hrest
      · right; exact ⟨f, by simp, hf⟩
      · rcases List.mem_cons.mp hrest with rfl | hJ
        · left; rfl
        · rcases ih hJ with h1 | ⟨l, hl, hcl⟩
          · left; exact h1
          · right; exact ⟨l, by simp [hl], hcl⟩

theorem joinSep_eq_intercalate (sep : Char) (L : List (List Char)) :
    joinSep sep L = [sep].intercalate L := by
  induction L with
  | nil => simp [joinSep, List.intercalate]
  | cons f L2 ih =>
    cases L2 with
    | nil => simp [joinSep, List.intercalate]
    | cons g L3 =>
      rw [joinSep_cons _ _ _ (by simp), ih]
      simp [List.intercalate]

theorem renderCSV_unquoted (rs : List (List (List Char))) :
    renderCSV (rs.map (fun r => r.map (fun cs => FieldSpec.mk false cs))) =
      joinSep '\n' (rs.map (fun r => joinSep ',' r)) := by
  unfold renderCSV renderRow
  rw [List.map_map]
  congr 1
  apply List.map_congr_left
  intro r _
  simp [Function.comp_def, renderField, List.map_map]

theorem fallback_line (r : List (List Char)) (hp : plainRow r) :
    trimChars (joinSep ',' r) = joinSep ',' r ∧ (joinSep ',' r) ≠ [] ∧
      (joinSep ',' r).splitOn ',' = r := by
  obtain ⟨hne, hfields, hex⟩ := hp
  have hhead : headNotWs (joinSep ',' r) :=
    headNotWs_joinSep ',' (by decide) r
      (fun cs hcs => (headNotWs_of_trim cs (hfields cs hcs).2).1)
  have hrev : headNotWs (joinSep ',' r).reverse := by
    rw [joinSep_reverse]
    apply headNotWs_joinSep ',' (by decide)
    intro cs2 hcs2
    simp only [List.mem_reverse, List.mem_map] at hcs2
    obtain ⟨cs, hcs, rfl⟩ := hcs2
    exact (headNotWs_of_trim cs (hfields cs hcs).2).2
  refine ⟨trimChars_eq_self _ hhead hrev, joinSep_ne_nil ',' r hex, ?_⟩
  rw [joinSep_eq_intercalate]
  exact List.splitOn_intercalate r ','
    (fun l hl hmem => ((hfields l hl).1 ',' hmem).2.1 rfl) hne

theorem fallback_render (rs : List (List (List Char))) (h : ∀ r ∈ rs, plainRow r)
    (hrs : rs ≠ []) :
    fallbackRows (String.mk (joinSep '\n' (rs.map (fun r => joinSep ',' r)))) =
      rs.map (fun r => r.map String.mk) := by
  unfold fallbackRows
  have hdata : (String.mk (joinSep '\n' (rs.map (fun r => joinSep ',' r)))).data
      = joinSep '\n' (rs.map (fun r => joinSep ',' r)) := rfl
  rw [hdata]
  have hsplit : (joinSep '\n' (rs.map (fun r => joinSep ',' r))).splitOn '\n'
      = rs.map (fun r => joinSep ',' r) := by
    rw [joinSep_eq_intercalate]
    apply List.splitOn_intercalate
    · intro l hl hnl
      simp only [List.mem_map] at hl
      obtain ⟨r, hr, rfl⟩ := hl
      rcases mem_joinSep ',' '\n' r hnl with h1 | ⟨cs, hcs, hmem⟩
      · exact absurd h1 (by decide)
      · exact (((h r hr).2.1 cs hcs).1 '\n' hmem).2.2.1 rfl
    · simpa using hrs
  rw [hsplit]
  have hfilter : (rs.map (fun r => joinSep ',' r)).filter (fun l => !(trimChars l).isEmpty)
      = rs.map (fun r => joinSep ',' r) := by
    apply List.filter_eq_self.mpr
    intro l hl
    simp only [List.mem_map] at hl
    obtain ⟨r, hr, rfl⟩ := hl
    obtain ⟨htrim, hne, _⟩ := fallback_line r (h r hr)
    rw [htrim]
    simpa using hne
  rw [hfilter, List.map_map]
  apply List.map_congr_left
  intro r hr
  obtain ⟨htrim, hne, hsplit2⟩ := fallback_line r (h r hr)
  simp [Function.comp_def, htrim, hsplit2]

/-! ## The shuffle is a permutation -/

theorem swapHead {α : Type} (xs : List α) (m : ℕ) (b x : α) (h : xs[m]? = some b) :
    (b :: xs.set m x).Perm (x :: xs) := by
  induction xs generalizing m with
  | nil => simp at h
  | cons y ys ih =>
    cases m with
    | zero =>
      have hyb : y = b := by simpa using h
      subst hyb
      simpa [List.set] using List.Perm.swap x y ys
    | succ k =>
      have hk : ys[k]? = some b := by simpa using h
      show (b :: y :: ys.set k x).Perm (x :: y :: ys)
      exact (List.Perm.swap y b (ys.set k x)).trans
        (((ih k hk).cons y).trans (List.Perm.swap x y ys))

theorem set_set_perm {α : Type} :
    ∀ (l : List α) (i j : ℕ) (a b : α), l[i]? = some a → l[j]? = some b →
      ((l.set i b).set j a).Perm l := by
  intro l
  induction l with
  | nil => intro i j a b hi _; simp at hi
  | cons x xs ih =>
    intro i j a b hi hj
    cases i with
    | zero =>
      have hxa : x = a := by simpa using hi
      subst hxa
      cases j with
      | zero =>
        have hxb : x = b := by simpa using hj
        subst hxb
        simp [List.set]
      | succ k =>
        have hk : xs[k]? = some b := by simpa using hj
        simpa [List.set] using swapHead xs k b x hk
    | succ n =>
      have hn : xs[n]? = some a := by simpa using hi
      cases j with
      | zero =>
        have hxb : x = b := by simpa using hj
        subst hxb
        simpa [List.set] using swapHead xs n a x hn
      | succ k =>
        have hk : xs[k]? = some b := by simpa using hj
        simpa [List.set] using (ih n k a b hn hk).cons x

theorem listSwap_perm {α : Type} (l : List α) (i j : ℕ) : (listSwap l i j).Perm l := by
  unfold listSwap
  split
  · next a b hi hj => exact set_set_perm l i j a b hi hj
  · exact List.Perm.refl l

theorem fyAux_perm {α : Type} (choice : ℕ → ℕ) :
    ∀ (n : ℕ) (l : List α), (fyAux choice l n).Perm l := by
  intro n
  induction n with
  | zero => intro l; exact List.Perm.refl l
  | succ i ih =>
    intro l
    exact (ih (listSwap l (i + 1) (choice (i + 1)))).trans (listSwap_perm l _ _)

theorem shuffleArray_perm {α : Type} (choice : ℕ → ℕ) (array : List α) :
    (shuffleArray choice array).Perm array :=
  fyAux_perm choice (array.length - 1) array

theorem getElem?_indexOf_self (l : List String) (a : String) (h : a ∈ l) :
    l[l.indexOf a]? = some a := by
  induction l with
  | nil => simp at h
  | cons x xs ih =>
    by_cases hx : x = a
    · subst hx
      simp [List.indexOf_cons]
    · have hmem : a ∈ xs := by
        rcases List.mem_cons.mp h with h1 | h1
        · exact absurd h1.symm hx
        · exact h1
      have hbeq : (x == a) = false := beq_eq_false_iff_ne.mpr hx
      simp [List.indexOf_cons, hbeq]
      exact ih hmem

/-! ## Helper lemmas about submission and validation -/

theorem canSubmit_iff (s : GameState) :
    canSubmit s = true ↔
      (s.roundComplete = false ∧ ∀ qs ∈ s.questionSets, qs.selected.isSome = true) := by
  simp [canSubmit, Bool.and_eq_true, List.all_eq_true, Bool.not_eq_true']

theorem submit_noop (s : GameState) (h : canSubmit s = false) : submitAnswers s = s := by
  unfold submitAnswers
  by_cases hrc : s.roundComplete
  · rw [if_pos hrc]
  · have hall : s.questionSets.all (fun qs => qs.selected.isSome) = false := by
      unfold canSubmit at h
      simpa [hrc] using h
    rw [if_neg hrc, if_pos (by simp [hall])]

theorem submit_fields (s : GameState) (h : canSubmit s = true) :
    submitAnswers s =
      { s with
        timerRunning := false,
        roundComplete := true,
        currentRoundCorrect := countCorrect s.questionSets,
        currentRoundTotal := s.questionSets.length,
        cumulativeCorrect := s.cumulativeCorrect + countCorrect s.questionSets,
        cumulativeTotal := s.cumulativeTotal + s.questionSets.length,
        showCongratulations := if !s.timeExpired then true else s.showCongratulations } := by
  unfold canSubmit at h
  rw [Bool.and_eq_true] at h
  obtain ⟨h1, h2⟩ := h
  have hrc : s.roundComplete = false := by simpa using h1
  unfold submitAnswers
  rw [if_neg (by simp [hrc]), if_neg (by simp [h2])]

theorem validateOutcomes_getElem (rand : ℕ → ℕ → ℕ) (rows : List (List String)) (k : ℕ) :
    (validateOutcomes rand rows)[k]? =
      ((rows.drop 1)[k]?).map (fun parts => processRow (rand (k + 1)) (k + 1) parts) := by
  unfold validateOutcomes
  rw [List.getElem?_map, List.getElem?_enum]
  cases (rows.drop 1)[k]? <;> rfl

theorem filterMap_eraseIdx_none {α β : Type} (f : α → Option β) :
    ∀ (l : List α) (k : ℕ) (x : α), l[k]? = some x → f x = none →
      (l.eraseIdx k).filterMap f = l.filterMap f := by
  intro l
  induction l with
  | nil => intro k x hk _; simp at hk
  | cons y ys ih =>
    intro k x hk hfx
    cases k with
    | zero =>
      have hxy : y = x := by simpa using hk
      subst hxy
      simp [List.eraseIdx, List.filterMap_cons, hfx]
    | succ k2 =>
      have hk2 : ys[k2]? = some x := by simpa using hk
      cases hfy : f y with
      | none => simp [List.eraseIdx, List.filterMap_cons, hfy, ih k2 x hk2 hfx]
      | some b => simp [List.eraseIdx, List.filterMap_cons, hfy, ih k2 x hk2 hfx]

/-! ## The claims -/

/-- **C1.** For every input text built from well-formed rows of field
specifications, `parseCSV` trims leading/trailing whitespace from every
field that did not begin with a double quote, and returns the exact
interior content, untrimmed, for every field that began with a double
quote — so interior whitespace and newlines of quoted fields are preserved
verbatim. -/
theorem claim1_parser_trimming (rs : List (List FieldSpec)) (h : ∀ r ∈ rs, goodRow r) :
    parseCSV (String.mk (renderCSV rs)) =
      rs.map (fun r => r.map (fun f =>
        if f.quoted then String.mk f.content else String.mk (trimChars f.content))) := by
  rw [parse_render rs h]
  rfl

theorem claim1_witness :
    (∀ r ∈ ([[⟨true, " a\nb ".data⟩, ⟨false, "  c  ".data⟩], [⟨false, "x".data⟩]] :
        List (List FieldSpec)), goodRow r) ∧
    parseCSV (String.mk (renderCSV
        [[⟨true, " a\nb ".data⟩, ⟨false, "  c  ".data⟩], [⟨false, "x".data⟩]])) =
      [[" a\nb ", "c"], ["x"]] := by
  refine ⟨by decide, ?_⟩
  rw [claim1_parser_trimming
    [[⟨true, " a\nb ".data⟩, ⟨false, "  c  ".data⟩], [⟨false, "x".data⟩]] (by decide)]
  decide

/-- **C8.** A double-quote character appearing in the middle of a field
that is not in quoted mode (`currentField` nonempty, `inQuotes` false) is
kept as a literal character of the field: the scan appends it to the
current field and quoted mode stays closed; no error is possible (the
parser is total). -/
theorem claim8_literal_quote (rest : List Char) (rows : List (List String))
    (row : List String) (fld : List Char) (sq : Bool) (h : fld ≠ []) :
    parseCSVAux ('"' :: rest) rows row fld false sq =
      parseCSVAux rest rows row (fld ++ ['"']) false sq :=
  step_litquote rest rows row fld sq h

theorem claim8_witness :
    (['a'] : List Char) ≠ [] ∧
    parseCSVAux ('"' :: "b".data) [] [] ['a'] false false =
      parseCSVAux "b".data [] [] ['a', '"'] false false :=
  ⟨by decide, claim8_literal_quote "b".data [] [] ['a'] false (by decide)⟩

/-- **C2 counterexample.** Starting a round with `timeLimitSeconds = 1`
and letting exactly one timer tick elapse does NOT complete the round: the
tick merely brings `timeRemaining` from 1 to 0 (`startTimer` only fires
the expiry branch on the tick after the remaining time has reached 0), and
a subsequent `selectAnswer` still takes effect. -/
theorem claim2_counterexample :
    let q : Question := { question := "q", answers := ["a", "b", "c", "d"], correct := 0 }
    let s0 : GameState := {
      allQuestions := [q], questionsPerRound := 1, timeLimitSeconds := 1,
      questionSets := [], timeRemaining := 0, roundComplete := false,
      timeExpired := false, showCongratulations := false, currentRound := 1,
      currentRoundCorrect := 0, currentRoundTotal := 0, cumulativeCorrect := 0,
      cumulativeTotal := 0, roundTheme := 0, timerRunning := false }
    let s1 := timerTick (startNewRound [q] 0 s0)
    s1.roundComplete = false ∧ s1.timeExpired = false ∧ s1.timeRemaining = 0 ∧
      (selectAnswer 0 1 s1).questionSets.map QuestionState.selected ≠
        s1.questionSets.map QuestionState.selected := by
  decide

/-- **C2 (amended).** Starting a round with `timeLimitSeconds = 1` and
letting two timer ticks elapse with no submission (the first tick brings
the remaining time from 1 to 0; the expiry branch fires on the following
tick) transitions the round to `Complete(TimedOut)`: `roundComplete` and
`timeExpired` become true, the countdown stops, and every subsequent
`selectAnswer` call is a no-op. -/
theorem claim2_two_ticks_expiry (shuffled : List Question) (theme : ℕ) (s : GameState)
    (questionIndex answerIndex : ℕ) :
    (timerTick (timerTick (startNewRound shuffled theme
        { s with timeLimitSeconds := 1 }))).roundComplete = true ∧
    (timerTick (timerTick (startNewRound shuffled theme
        { s with timeLimitSeconds := 1 }))).timeExpired = true ∧
    (timerTick (timerTick (startNewRound shuffled theme
        { s with timeLimitSeconds := 1 }))).timerRunning = false ∧
    selectAnswer questionIndex answerIndex
        (timerTick (timerTick (startNewRound shuffled theme
          { s with timeLimitSeconds := 1 }))) =
      timerTick (timerTick (startNewRound shuffled theme
        { s with timeLimitSeconds := 1 })) :=
  ⟨rfl, rfl, rfl, rfl⟩

/-- **C10.** If the parser produces fewer than 2 rows (no data row after
the header), validation fails with
`'File must contain at least a header and one question.'`, the
loaded-questions flag is set to false, and the stored question set is left
unchanged (no questions are loaded). -/
theorem claim10_too_few_rows (rand : ℕ → ℕ → ℕ) (csvText : String) (st : UploadState)
    (h : (parseCSV csvText).length < 2) :
    parseAndValidateCSV rand csvText st =
      { st with
        uploadError := some "File must contain at least a header and one question.",
        questionsLoaded := false } := by
  unfold parseAndValidateCSV
  rw [if_pos h]

theorem claim10_witness :
    let st : UploadState := {
      questionsPerRound := 4, uploadError := none,
      questionsLoaded := true, uploadedQuestions := [], questionCount := 0 }
    (parseCSV "").length < 2 ∧
    parseAndValidateCSV (fun _ _ => 0) "" st =
      { st with
        uploadError := some "File must contain at least a header and one question.",
        questionsLoaded := false } :=
  ⟨by decide, claim10_too_few_rows (fun _ _ => 0) "" _ (by decide)⟩

/-- **C3 counterexample.** The fallback (built-in) loading path does not
use the same parsing contract as uploads: on the input `"a,b",c` the
upload parser recognises the quoted field (`[["a,b", "c"]]`) while the
fallback parser splits blindly on the comma (`[["\"a", "b\"", "c"]]`). -/
theorem claim3_counterexample :
    parseCSV "\"a,b\",c" ≠ fallbackRows "\"a,b\",c" := by decide

/-- **C3 (amended).** The fallback parser is a plain newline/comma split
with no quote handling, so it does not match the upload parser on all
inputs; the two produce the same row/field decomposition on texts whose
fields contain no quotes, commas, CRs or newlines, carry no leading or
trailing whitespace, and where every row has a nonempty field. -/
theorem claim3_parsers_agree_on_plain_inputs (rs : List (List (List Char)))
    (h : ∀ r ∈ rs, plainRow r) :
    parseCSV (String.mk (joinSep '\n' (rs.map (fun r => joinSep ',' r)))) =
      fallbackRows (String.mk (joinSep '\n' (rs.map (fun r => joinSep ',' r)))) := by
  by_cases hrs : rs = []
  · subst hrs; decide
  · have hgood : ∀ r2 ∈ rs.map (fun r => r.map (fun cs => FieldSpec.mk false cs)),
        goodRow r2 := by
      intro r2 hr2
      simp only [List.mem_map] at hr2
      obtain ⟨r, hr, rfl⟩ := hr2
      obtain ⟨hne, hfields, hex⟩ := h r hr
      refine ⟨by simpa using hne, ?_, ?_⟩
      · intro f hf
        simp only [List.mem_map] at hf
        obtain ⟨cs, hcs, rfl⟩ := hf
        intro _
        exact (hfields cs hcs).1
      · obtain ⟨cs, hcs, hcsne⟩ := hex
        apply List.any_eq_true.mpr
        refine ⟨procField ⟨false, cs⟩,
          List.mem_map.mpr ⟨⟨false, cs⟩, List.mem_map.mpr ⟨cs, hcs, rfl⟩, rfl⟩, ?_⟩
        have hstable : trimChars cs = cs := (hfields cs hcs).2
        simp only [procField, pushField, if_neg (by simp : ¬(false = true)), hstable]
        simpa [String.length, List.length_pos] using hcsne
    have hL : parseCSV (String.mk (joinSep '\n' (rs.map (fun r => joinSep ',' r)))) =
        rs.map (fun r => r.map String.mk) := by
      rw [← renderCSV_unquoted, parse_render _ hgood, List.map_map]
      apply List.map_congr_left
      intro r hr
      simp only [Function.comp_def, List.map_map]
      apply List.map_congr_left
      intro cs hcs
      have hstable : trimChars cs = cs := ((h r hr).2.1 cs hcs).2
      simp [procField, pushField, hstable]
    rw [hL, fallback_render rs h hrs]

theorem claim3_witness :
    (∀ r ∈ ([["h".data], ["a".data, "b".data]] : List (List (List Char))), plainRow r) ∧
    parseCSV (String.mk (joinSep '\n'
        (([["h".data], ["a".data, "b".data]] : List (List (List Char))).map
          (fun r => joinSep ',' r)))) =
      fallbackRows (String.mk (joinSep '\n'
        (([["h".data], ["a".data, "b".data]] : List (List (List Char))).map
          (fun r => joinSep ',' r)))) :=
  ⟨by decide, claim3_parsers_agree_on_plain_inputs [["h".data], ["a".data, "b".data]]
    (by decide)⟩

/-- **C4.** For every row accepted by the validator and every outcome of
the random shuffle, the produced question's `answers` is a permutation of
`[correct, wrong1, wrong2, wrong3]` (the trimmed fields 1-4 of the source
row) and `answers[correctIndex]` equals the trimmed correct-answer text
from field 1. -/
theorem claim4_shuffle_roundtrip (choice : ℕ → ℕ) (i : ℕ) (parts : List String)
    (q : Question) (hok : processRow choice i parts = .ok q) :
    q.answers.Perm [jsTrim (parts.getD 1 ""), jsTrim (parts.getD 2 ""),
      jsTrim (parts.getD 3 ""), jsTrim (parts.getD 4 "")] ∧
    q.answers[q.correct]? = some (jsTrim (parts.getD 1 "")) := by
  simp only [processRow] at hok
  split_ifs at hok with h1 h2 h3 h4 h5
  injection hok with hq
  subst hq
  refine ⟨shuffleArray_perm choice _, ?_⟩
  have hmem : jsTrim (parts.getD 1 "") ∈ shuffleArray choice [jsTrim (parts.getD 1 ""),
      jsTrim (parts.getD 2 ""), jsTrim (parts.getD 3 ""), jsTrim (parts.getD 4 "")] :=
    (shuffleArray_perm choice _).mem_iff.mpr (by simp)
  exact getElem?_indexOf_self _ _ hmem

theorem claim4_witness :
    processRow (fun _ => 0) 1 ["q ", " c", "w1", "w2", "w3"] =
      .ok { question := "q", answers := ["w1", "w2", "w3", "c"], correct := 3 } ∧
    (["w1", "w2", "w3", "c"] : List String).Perm
      [jsTrim ((["q ", " c", "w1", "w2", "w3"] : List String).getD 1 ""),
        jsTrim ((["q ", " c", "w1", "w2", "w3"] : List String).getD 2 ""),
        jsTrim ((["q ", " c", "w1", "w2", "w3"] : List String).getD 3 ""),
        jsTrim ((["q ", " c", "w1", "w2", "w3"] : List String).getD 4 "")] ∧
    (["w1", "w2", "w3", "c"] : List String)[(3 : ℕ)]? =
      some (jsTrim ((["q ", " c", "w1", "w2", "w3"] : List String).getD 1 "")) := by
  refine ⟨by decide, ?_, ?_⟩
  · exact (claim4_shuffle_roundtrip (fun _ => 0) 1 ["q ", " c", "w1", "w2", "w3"]
      { question := "q", answers := ["w1", "w2", "w3", "c"], correct := 3 } (by decide)).1
  · exact (claim4_shuffle_roundtrip (fun _ => 0) 1 ["q ", " c", "w1", "w2", "w3"]
      { question := "q", answers := ["w1", "w2", "w3", "c"], correct := 3 } (by decide)).2

/-- **C5.** `canSubmit` is true iff the round is Active (not complete) and
every question's selected index is set; `submitAnswers` is a no-op unless
`canSubmit` holds; on success it stops the countdown, sets `correctCount`
to the number of questions whose selected index equals the question's
`correctIndex`, sets `totalCount` to the number of questions in the round,
and completes the round as submitted (`roundComplete` becomes true while
`timeExpired` keeps its value, false for an active round). -/
theorem claim5_submit_gating (s : GameState) :
    (canSubmit s = true ↔
      (s.roundComplete = false ∧ ∀ qs ∈ s.questionSets, qs.selected.isSome = true)) ∧
    (canSubmit s = false → submitAnswers s = s) ∧
    (canSubmit s = true →
      (submitAnswers s).timerRunning = false ∧
      (submitAnswers s).currentRoundCorrect = countCorrect s.questionSets ∧
      (submitAnswers s).currentRoundTotal = s.questionSets.length ∧
      (submitAnswers s).roundComplete = true ∧
      (submitAnswers s).timeExpired = s.timeExpired) := by
  refine ⟨canSubmit_iff s, submit_noop s, ?_⟩
  intro h
  rw [submit_fields s h]
  exact ⟨rfl, rfl, rfl, rfl, rfl⟩

theorem claim5_witness :
    let q1 : Question := { question := "q1", answers := ["a", "b", "c", "d"], correct := 2 }
    let q2 : Question := { question := "q2", answers := ["a", "b", "c", "d"], correct := 1 }
    let s : GameState := {
      allQuestions := [q1, q2], questionsPerRound := 2, timeLimitSeconds := 90,
      questionSets := [{ question := q1, selected := some 2 },
        { question := q2, selected := some 0 }],
      timeRemaining := 42, roundComplete := false, timeExpired := false,
      showCongratulations := false, currentRound := 1, currentRoundCorrect := 0,
      currentRoundTotal := 0, cumulativeCorrect := 0, cumulativeTotal := 0,
      roundTheme := 0, timerRunning := true }
    canSubmit s = true ∧
      (submitAnswers s).timerRunning = false ∧
      (submitAnswers s).currentRoundCorrect = countCorrect s.questionSets ∧
      (submitAnswers s).currentRoundTotal = s.questionSets.length ∧
      (submitAnswers s).roundComplete = true ∧
      (submitAnswers s).timeExpired = s.timeExpired := by
  exact ⟨by decide, (claim5_submit_gating _).2.2 (by decide)⟩

/-- **C6.** For every parsed row other than the header and rows whose
first field is empty, if the row has fewer than 5 fields then the
validator records at position `i - 1` of its outcome list exactly the
error string `"Line <n>: Not enough columns (need at least 5: question +
4 answers)"`, where `n = i + 1` is the row's 1-based position among the
parsed rows counting the header; the string appears in the collected
errors, and the accepted question set is exactly the one obtained with
that row's outcome removed (the row contributes no question). -/
theorem claim6_short_row_error (rand : ℕ → ℕ → ℕ) (csvText : String) (i : ℕ)
    (parts : List String) (hge : 1 ≤ i) (hrow : (parseCSV csvText)[i]? = some parts)
    (hne : parts ≠ []) (hhead : parts.headD "" ≠ "") (hlen : parts.length < 5) :
    (validateOutcomes rand (parseCSV csvText))[i - 1]? =
      some (.err ("Line " ++ toString (i + 1) ++
        ": Not enough columns (need at least 5: question + 4 answers)")) ∧
    ("Line " ++ toString (i + 1) ++
        ": Not enough columns (need at least 5: question + 4 answers)") ∈
      validateErrors rand (parseCSV csvText) ∧
    validateQuestions rand (parseCSV csvText) =
      ((validateOutcomes rand (parseCSV csvText)).eraseIdx (i - 1)).filterMap
        RowOutcome.questionOf := by
  have hdrop : ((parseCSV csvText).drop 1)[i - 1]? = some parts := by
    rw [List.getElem?_drop]
    have h1i : 1 + (i - 1) = i := by omega
    rw [h1i]
    exact hrow
  have hpr : processRow (rand i) i parts =
      .err ("Line " ++ toString (i + 1) ++
        ": Not enough columns (need at least 5: question + 4 answers)") := by
    unfold processRow
    have hcond : ¬(parts.length = 0 ∨ parts.headD "" = "") := by
      push_neg
      exact ⟨by simpa [List.length_eq_zero] using hne, hhead⟩
    rw [if_neg hcond, if_pos hlen]
  have hi1 : i - 1 + 1 = i := by omega
  have hout : (validateOutcomes rand (parseCSV csvText))[i - 1]? =
      some (.err ("Line " ++ toString (i + 1) ++
        ": Not enough columns (need at least 5: question + 4 answers)")) := by
    rw [validateOutcomes_getElem, hdrop, hi1]
    simp [hpr]
  refine ⟨hout, ?_, ?_⟩
  · exact List.mem_filterMap.mpr ⟨_, List.getElem?_mem hout, rfl⟩
  · exact (filterMap_eraseIdx_none RowOutcome.questionOf _ _ _ hout rfl).symm

theorem claim6_witness :
    (parseCSV "h\na,b")[1]? = some ["a", "b"] ∧
    (validateOutcomes (fun _ _ => 0) (parseCSV "h\na,b"))[0]? =
      some (.err "Line 2: Not enough columns (need at least 5: question + 4 answers)") ∧
    ("Line 2: Not enough columns (need at least 5: question + 4 answers)" ∈
      validateErrors (fun _ _ => 0) (parseCSV "h\na,b")) := by
  have h := claim6_short_row_error (fun _ _ => 0) "h\na,b" 1 ["a", "b"]
    (by decide) (by decide) (by decide) (by decide) (by decide)
  have hs : ("Line " ++ toString (1 + 1) ++
      ": Not enough columns (need at least 5: question + 4 answers)") =
      "Line 2: Not enough columns (need at least 5: question + 4 answers)" := by decide
  exact ⟨by decide, hs ▸ h.1, hs ▸ h.2.1⟩

/-- **C7 counterexample.** An upload whose only data row is invalid leaves
the accepted count (0) below the minimum (4), yet validation reports the
combined `"Errors found:..."` message, not
`"Need at least 4 valid questions. Found only 0."` — the zero-accepted-
with-errors branch takes precedence. -/
theorem claim7_counterexample :
    let st : UploadState := {
      questionsPerRound := 4, uploadError := none,
      questionsLoaded := false, uploadedQuestions := [], questionCount := 0 }
    (validateQuestions (fun _ _ => 0) (parseCSV "Question,A,B,C,D\nQ1,A")).length <
        st.questionsPerRound ∧
    (parseAndValidateCSV (fun _ _ => 0) "Question,A,B,C,D\nQ1,A" st).uploadError ≠
        some "Need at least 4 valid questions. Found only 0." ∧
    (parseAndValidateCSV (fun _ _ => 0) "Question,A,B,C,D\nQ1,A" st).uploadError =
        some "Errors found:\nLine 2: Not enough columns (need at least 5: question + 4 answers)" := by
  decide

/-- **C7 (amended).** When at least two rows parse and the accepted count
is below the configured minimum, and the zero-accepted-with-errors branch
does not apply (some row was accepted, or there were no row errors),
validation fails with exactly
`"Need at least <minRequired> valid questions. Found only <found>."`,
the loaded flag is false, and the stored question set is untouched — no
partial set is accepted. -/
theorem claim7_min_questions_failure (rand : ℕ → ℕ → ℕ) (csvText : String)
    (st : UploadState) (h2 : 2 ≤ (parseCSV csvText).length)
    (hlt : (validateQuestions rand (parseCSV csvText)).length < st.questionsPerRound)
    (hnc : 0 < (validateQuestions rand (parseCSV csvText)).length ∨
      validateErrors rand (parseCSV csvText) = []) :
    parseAndValidateCSV rand csvText st =
      { st with
        uploadError := some ("Need at least " ++ toString st.questionsPerRound ++
          " valid questions. Found only " ++
          toString (validateQuestions rand (parseCSV csvText)).length ++ "."),
        questionsLoaded := false } := by
  unfold parseAndValidateCSV
  rw [if_neg (by omega)]
  have hbranch : ¬((validateErrors rand (parseCSV csvText)).length > 0 ∧
      (validateQuestions rand (parseCSV csvText)).length = 0) := by
    rcases hnc with h | h
    · rintro ⟨_, h0⟩
      omega
    · rintro ⟨hl, _⟩
      rw [h] at hl
      simp at hl
  rw [if_neg hbranch, if_pos hlt]

theorem claim7_witness :
    let st : UploadState := {
      questionsPerRound := 4, uploadError := none,
      questionsLoaded := false, uploadedQuestions := [], questionCount := 0 }
    let text := "h1,h2,h3,h4,h5\nq1,a,b,c,d\nq2,a,b,c,d\nq3,a,b,c,d"
    (validateQuestions (fun _ _ => 0) (parseCSV text)).length = 3 ∧
    parseAndValidateCSV (fun _ _ => 0) text st =
      { st with
        uploadError := some ("Need at least " ++ toString st.questionsPerRound ++
          " valid questions. Found only " ++
          toString (validateQuestions (fun _ _ => 0) (parseCSV text)).length ++ "."),
        questionsLoaded := false } ∧
    (parseAndValidateCSV (fun _ _ => 0) text st).uploadError =
      some "Need at least 4 valid questions. Found only 3." := by
  refine ⟨by decide, ?_, by decide⟩
  exact claim7_min_questions_failure (fun _ _ => 0) _ _ (by decide) (by decide)
    (Or.inr (by decide))

/-- **C9.** Along any in-game step of the round engine, the cumulative
session totals are unchanged unless the step is a successful submission,
in which case they grow by exactly that round's `correctCount` and
`totalCount` (a timed-out round leaves them unchanged); and the derived
cumulative percentage equals `round(100 * cumulativeCorrect /
cumulativeTotal)`, defined as 0 when `cumulativeTotal` is 0. -/
theorem claim9_cumulative_totals (s t : GameState) (hstep : Step s t) :
    ((t.cumulativeCorrect = s.cumulativeCorrect ∧ t.cumulativeTotal = s.cumulativeTotal) ∨
      (canSubmit s = true ∧ t = submitAnswers s ∧
        t.cumulativeCorrect = s.cumulativeCorrect + countCorrect s.questionSets ∧
        t.cumulativeTotal = s.cumulativeTotal + s.questionSets.length ∧
        t.roundComplete = true)) ∧
    getCumulativePercent t =
      (if t.cumulativeTotal = 0 then 0
       else round ((100 * (t.cumulativeCorrect : ℚ)) / (t.cumulativeTotal : ℚ))) := by
  constructor
  · cases hstep with
    | select questionIndex answerIndex s =>
      left
      unfold selectAnswer
      split
      · exact ⟨rfl, rfl⟩
      · split
        · exact ⟨rfl, rfl⟩
        · exact ⟨rfl, rfl⟩
    | tick s =>
      left
      unfold timerTick
      split
      · exact ⟨rfl, rfl⟩
      · split
        · exact ⟨rfl, rfl⟩
        · exact ⟨rfl, rfl⟩
    | submit s =>
      by_cases hc : canSubmit s = true
      · right
        rw [submit_fields s hc]
        exact ⟨hc, (submit_fields s hc).symm ▸ rfl, rfl, rfl, rfl⟩
      · left
        rw [submit_noop s (by simpa using hc)]
        exact ⟨rfl, rfl⟩
    | next shuffled theme s hperm => exact Or.inl ⟨rfl, rfl⟩
    | start shuffled theme s hperm => exact Or.inl ⟨rfl, rfl⟩
  · unfold getCumulativePercent
    split
    · rfl
    · rw [div_mul_eq_mul_div, mul_comm]

theorem claim9_witness :
    let q1 : Question := { question := "q1", answers := ["a", "b", "c", "d"], correct := 2 }
    let s : GameState := {
      allQuestions := [q1], questionsPerRound := 1, timeLimitSeconds := 90,
      questionSets := [{ question := q1, selected := none }],
      timeRemaining := 90, roundComplete := false, timeExpired := false,
      showCongratulations := false, currentRound := 1, currentRoundCorrect := 0,
      currentRoundTotal := 0, cumulativeCorrect := 3, cumulativeTotal := 4,
      roundTheme := 0, timerRunning := true }
    (((timerTick s).cumulativeCorrect = s.cumulativeCorrect ∧
        (timerTick s).cumulativeTotal = s.cumulativeTotal) ∨
      (canSubmit s = true ∧ timerTick s = submitAnswers s ∧
        (timerTick s).cumulativeCorrect = s.cumulativeCorrect + countCorrect s.questionSets ∧
        (timerTick s).cumulativeTotal = s.cumulativeTotal + s.questionSets.length ∧
        (timerTick s).roundComplete = true)) ∧
    getCumulativePercent (timerTick s) =
      (if (timerTick s).cumulativeTotal = 0 then 0
       else round ((100 * ((timerTick s).cumulativeCorrect : ℚ)) /
         ((timerTick s).cumulativeTotal : ℚ))) := by
  exact claim9_cumulative_totals _ _ (Step.tick _)

end Junebug
